import Mathlib

/-!
Verification of the Sudoku constraint-programming solver (`sudoku.py`).

The solver builds a 0/1 linear program over 729 binary decision variables
`Cell_(row,_col,_value)` (row, col in 0..8, value in 1..9), adds the four
structural "exactly one" constraint families plus one forcing constraint per
nonzero starting cell, hands the program to an external exact feasibility
backend, and extracts the solution by filtering the variables whose value
is 1 (in the backend's name-sorted variable order, which is lexicographic
in (row, col, value)).

Constraints are embedded as the list of candidates they range over; every
constraint of the program means "exactly one candidate of this list is
assigned true", which is the meaning of `lpSum [...] == 1` over binary
variables, and a forcing constraint `var == 1` is the singleton instance.
-/

set_option maxRecDepth 8000

namespace Sudoku

/-- A candidate `(row, col, value)`: dictionary key of one decision variable. -/
abbrev Cand := Nat × Nat × Nat

/-- A constraint of the linear program: the list of candidates it sums over;
its meaning is `lpSum of these binary variables == 1`. -/
abbrev Constraint := List Cand

/-- The list built by range(1, 10): the candidate values 1..9. -/
def values : List Nat := (List.range 9).map (fun i => i + 1)

/-- The nine candidates of one cell, in value order. -/
def cellCands (row col : Nat) : Constraint := values.map fun v => (row, col, v)

/-- Constraints "every cell can only take on a single value": one per cell,
row-major order, from the source method building the fixed constraints. -/
def cellConstraints : List Constraint :=
  (List.range 9).flatMap fun row => (List.range 9).map fun col => cellCands row col

/-- The nine candidates of value `v` in row `row`, in column order. -/
def rowCands (v row : Nat) : Constraint := (List.range 9).map fun col => (row, col, v)

/-- Constraints "every value (1-9) must be seen exactly once per row", in the
source loop order (value outer, row inner). -/
def rowConstraints : List Constraint :=
  values.flatMap fun v => (List.range 9).map fun row => rowCands v row

/-- The nine candidates of value `v` in column `col`, in row order. -/
def colCands (v col : Nat) : Constraint := (List.range 9).map fun row => (row, col, v)

/-- Constraints "every value (1-9) must be seen exactly once per column". -/
def colConstraints : List Constraint :=
  values.flatMap fun v => (List.range 9).map fun col => colCands v col

/-- The nine candidates of value `v` in the 3x3 box with offsets `(ro, co)`,
in the source's row-major inner order. -/
def boxCands (v ro co : Nat) : Constraint :=
  (List.range 3).flatMap fun row => (List.range 3).map fun col => (row + ro, col + co, v)

/-- Constraints "every value (1-9) must be seen exactly once per box":
offsets range over the tuple (0, 3, 6) as in the source. -/
def boxConstraints : List Constraint :=
  values.flatMap fun v =>
    ([0, 3, 6] : List Nat).flatMap fun ro =>
      ([0, 3, 6] : List Nat).map fun co => boxCands v ro co

/-- All constraints added by `_set_fixed_constraints`, in insertion order:
cells, then rows, then columns, then boxes. -/
def set_fixed_constraints : List Constraint :=
  cellConstraints ++ rowConstraints ++ colConstraints ++ boxConstraints

/-- A starting cell as supplied by the caller: a Python `(row, col, value)`
triple of (possibly negative) integers. -/
abbrev StartCell := Int × Int × Int

/-- Whether `(row, col, value)` is a key of the `_all_cells` dictionary,
which holds exactly the keys produced by
`[(row, col, value) for row in range(9) for col in range(9) for value in range(1, 10)]`. -/
def validKey (t : StartCell) : Bool :=
  decide (0 ≤ t.1 ∧ t.1 < 9 ∧ 0 ≤ t.2.1 ∧ t.2.1 < 9 ∧ 1 ≤ t.2.2 ∧ t.2.2 ≤ 9)

/-- The dictionary key named by an in-range starting cell. -/
def toCand (t : StartCell) : Cand := (t.1.toNat, t.2.1.toNat, t.2.2.toNat)

/-- The method adding starting-cell constraints: for each entry with `val > 0`
add the forcing constraint `self._all_cells[(row, col, val)] == 1`; looking up
a key absent from `_all_cells` raises a `KeyError`, which aborts construction. -/
def set_constraint_starting_cells : List StartCell → Except String (List Constraint)
  | [] => Except.ok []
  | t :: rest =>
      if 0 < t.2.2 then
        if validKey t then
          (set_constraint_starting_cells rest).map fun l => [toCand t] :: l
        else Except.error ("KeyError")
      else set_constraint_starting_cells rest

/-- The forcing constraints of a starting-cell list in which every lookup
succeeds: one singleton constraint per entry with positive value. -/
def startingConstraints (cells : List StartCell) : List Constraint :=
  cells.filterMap fun t => if 0 < t.2.2 then some [toCand t] else none

/-- Construction (`Solver.__init__(starting_cells)`): builds the decision
variables, adds the structural constraints, then the starting-cell
constraints; an out-of-range lookup raises and the object is never produced. -/
def solverInit (cells : List StartCell) : Except String (List Constraint) :=
  (set_constraint_starting_cells cells).map fun l => set_fixed_constraints ++ l

/-- An assignment of the 729 binary decision variables: `g r c i` is the value
of variable `Cell_(r,_c,_(i+1))`. -/
abbrev GridFun := Fin 9 → Fin 9 → Fin 9 → Bool

/-- Value of the decision variable keyed by candidate `t` under assignment
`g`; candidates outside the 729-key grid have no variable and read false. -/
def gval (g : GridFun) (t : Cand) : Bool :=
  if h : t.1 < 9 ∧ t.2.1 < 9 ∧ 1 ≤ t.2.2 ∧ t.2.2 - 1 < 9 then
    g ⟨t.1, h.1⟩ ⟨t.2.1, h.2.1⟩ ⟨t.2.2 - 1, h.2.2.2⟩
  else false

/-- A boolean valuation satisfies one constraint when exactly one of its
candidates is true (`lpSum == 1` over binary variables). -/
def satC (b : Cand → Bool) (cst : Constraint) : Prop := cst.countP b = 1

/-- A boolean valuation satisfies a whole program. -/
def SatB (b : Cand → Bool) (P : List Constraint) : Prop := ∀ cst ∈ P, satC b cst

instance (b : Cand → Bool) (cst : Constraint) : Decidable (satC b cst) := by
  unfold satC; infer_instance

instance (b : Cand → Bool) (P : List Constraint) : Decidable (SatB b P) := by
  unfold SatB; infer_instance

/-- The program has a satisfying assignment of its 729 binary variables. -/
def Satisfiable (P : List Constraint) : Prop := ∃ g : GridFun, SatB (gval g) P

instance (P : List Constraint) : Decidable (Satisfiable P) := by
  unfold Satisfiable; infer_instance

/-- The PuLP status names that `LpStatus[...]` can produce. -/
inductive SolveStatus
  | Optimal
  | Infeasible
  | Unbounded
  | NotSolved
  | Undefined
deriving DecidableEq, Repr

/-- Modelled from the spec: `solve_puzzle` delegates the search to the CBC
backend (`self.prob.solve(PULP_CBC_CMD(...))`), which is external to this
repository; per the spec the backend is an exact feasibility search over the
729 binary candidates that reports `Optimal` when a fully satisfying
assignment exists and `Infeasible` when the constraint system has none. -/
def solve_puzzle (P : List Constraint) : SolveStatus :=
  if Satisfiable P then SolveStatus.Optimal else SolveStatus.Infeasible

/-- Extraction (`parse_solution`) over the backend's per-variable truth
values `b`: it walks `prob.variablesDict()` — whose keys are the variable
names sorted by PuLP, i.e. lexicographic in `(row, col, value)` since every
index is a single digit — keeps the variables with value 1, and
regex-recovers each key's `(row, col, value)` triple. -/
def parse_solution (b : Cand → Bool) : List Cand :=
  (List.range 9).flatMap fun row =>
    (List.range 9).flatMap fun col => (cellCands row col).filter b

/-- A starting cell within the documented input range: row, col in `[0, 8]`,
value in `[0, 9]`. -/
def InRange (t : StartCell) : Prop :=
  0 ≤ t.1 ∧ t.1 < 9 ∧ 0 ≤ t.2.1 ∧ t.2.1 < 9 ∧ 0 ≤ t.2.2 ∧ t.2.2 ≤ 9

instance (t : StartCell) : Decidable (InRange t) := by
  unfold InRange; infer_instance

/-- The row-major list of candidates of a full grid `F`. -/
def gridOf (F : Nat → Nat → Nat) : List Cand :=
  (List.range 9).flatMap fun r => (List.range 9).map fun c => (r, c, F r c)

/-- The row-major starting-cell list that fixes every cell of grid `F`. -/
def gridCells (F : Nat → Nat → Nat) : List StartCell :=
  (List.range 9).flatMap fun (r : Nat) =>
    (List.range 9).map fun (c : Nat) => ((r : Int), (c : Int), (F r c : Int))

/-- The unique value assigned to cell `(r, c)` by valuation `b` (meaningful
whenever `b` satisfies the cell constraints). -/
def cellValue (b : Cand → Bool) (r c : Nat) : Nat :=
  (values.filter fun v => b (r, c, v)).headD 0

/-- The assignment of the 729 variables induced by a full grid `F`. -/
def gridAssign (F : Nat → Nat → Nat) : GridFun :=
  fun r c i => decide (F r.1 c.1 = i.1 + 1)

/-- A complete valid Sudoku grid: every cell holds a value 1..9 and every
row, column and 3x3 box holds each value exactly once. -/
def ValidGrid (F : Nat → Nat → Nat) : Prop :=
  (∀ r < 9, ∀ c < 9, F r c ∈ values) ∧
  (∀ v ∈ values, ∀ r < 9, ((List.range 9).countP fun c => decide (F r c = v)) = 1) ∧
  (∀ v ∈ values, ∀ c < 9, ((List.range 9).countP fun r => decide (F r c = v)) = 1) ∧
  (∀ v ∈ values, ∀ ro ∈ ([0, 3, 6] : List Nat), ∀ co ∈ ([0, 3, 6] : List Nat),
    (((List.range 3).flatMap fun r =>
      (List.range 3).map fun c => (r + ro, c + co)).countP
        fun rc => decide (F rc.1 rc.2 = v)) = 1)

instance (F : Nat → Nat → Nat) : Decidable (ValidGrid F) := by
  unfold ValidGrid; infer_instance

/-- The 729 decision-variable keys in `variablesDict` (name-sorted) order. -/
def allCands : List Cand :=
  (List.range 9).flatMap fun r => (List.range 9).flatMap fun c => cellCands r c

/-- A concrete complete valid Sudoku grid, used as witness input. -/
def demoGrid : Nat → Nat → Nat := fun r c => (3 * r + r / 3 + c) % 9 + 1

/-! ### Generic list and counting lemmas -/

theorem countP_flatMap {α β : Type} (l : List α) (f : α → List β) (p : β → Bool) :
    (l.flatMap f).countP p = (l.map fun a => (f a).countP p).sum := by
  induction l with
  | nil => rfl
  | cons a l ih => simp [List.flatMap_cons, List.countP_append, ih]

theorem flatMap_congr {α β : Type} {l : List α} {f g : α → List β}
    (h : ∀ a ∈ l, f a = g a) : l.flatMap f = l.flatMap g := by
  induction l with
  | nil => rfl
  | cons a l ih =>
      rw [List.flatMap_cons, List.flatMap_cons, h a (List.mem_cons_self a l),
        ih fun x hx => h x (List.mem_cons_of_mem a hx)]

theorem flatMap_singleton_eq_map {α β : Type} (l : List α) (f : α → β) :
    (l.flatMap fun a => [f a]) = l.map f := by
  induction l with
  | nil => rfl
  | cons a l ih => rw [List.flatMap_cons, List.map_cons, List.singleton_append, ih]

theorem sum_map_ite {α : Type} (l : List α) (q : α → Bool) :
    (l.map fun a => if q a then 1 else 0).sum = l.countP q := by
  induction l with
  | nil => rfl
  | cons a l ih =>
      rw [List.map_cons, List.sum_cons, List.countP_cons, ih]
      omega

theorem sum_map_range_eq_finset (n : Nat) (f : Nat → Nat) :
    ((List.range n).map f).sum = ∑ i ∈ Finset.range n, f i := by
  induction n with
  | zero => rfl
  | succ n ih =>
      rw [List.range_succ, List.map_append, List.sum_append, Finset.sum_range_succ, ih]
      rfl

theorem sum_map_range_single {n : Nat} {f : Nat → Nat} {r : Nat} (hr : r < n)
    (h : ∀ i < n, i ≠ r → f i = 0) : ((List.range n).map f).sum = f r := by
  rw [sum_map_range_eq_finset]
  exact Finset.sum_eq_single_of_mem r (Finset.mem_range.2 hr)
    fun b hb hbr => h b (Finset.mem_range.1 hb) hbr

theorem sum_map_range_zero {n : Nat} {f : Nat → Nat} (h : ∀ i < n, f i = 0) :
    ((List.range n).map f).sum = 0 :=
  List.sum_eq_zero fun x hx => by
    obtain ⟨i, hi, rfl⟩ := List.mem_map.1 hx
    exact h i (List.mem_range.1 hi)

theorem sum_map_range_window {n w o : Nat} {f : Nat → Nat} (hw : o + w ≤ n)
    (h0 : ∀ i < n, i < o ∨ o + w ≤ i → f i = 0) :
    ((List.range n).map f).sum = ((List.range w).map fun j => f (o + j)).sum := by
  rw [sum_map_range_eq_finset, sum_map_range_eq_finset]
  have hsub : Finset.Ico o (o + w) ⊆ Finset.range n := by
    intro x hx
    rw [Finset.mem_Ico] at hx
    exact Finset.mem_range.2 (by omega)
  have hz : ∀ x ∈ Finset.range n, x ∉ Finset.Ico o (o + w) → f x = 0 := by
    intro x hx hnx
    rw [Finset.mem_range] at hx
    rw [Finset.mem_Ico] at hnx
    exact h0 x hx (by omega)
  rw [← Finset.sum_subset hsub hz, Finset.sum_Ico_eq_sum_range]
  simp

theorem countP_ge_two {α : Type} [DecidableEq α] {l : List α} {b : α → Bool} {x y : α}
    (hx : x ∈ l) (hy : y ∈ l) (hxy : x ≠ y) (hbx : b x = true) (hby : b y = true) :
    2 ≤ l.countP b := by
  have hx' : x ∈ l.filter b := List.mem_filter.2 ⟨hx, hbx⟩
  have hy' : y ∈ l.filter b := List.mem_filter.2 ⟨hy, hby⟩
  have hsub : ({x, y} : Finset α) ⊆ (l.filter b).toFinset := by
    intro a ha
    rcases Finset.mem_insert.1 ha with rfl | ha'
    · exact List.mem_toFinset.2 hx'
    · rw [Finset.mem_singleton] at ha'
      subst ha'
      exact List.mem_toFinset.2 hy'
  calc 2 = ({x, y} : Finset α).card := (Finset.card_pair hxy).symm
    _ ≤ (l.filter b).toFinset.card := Finset.card_le_card hsub
    _ ≤ (l.filter b).length := List.toFinset_card_le _
    _ = l.countP b := (List.countP_eq_length_filter b l).symm

theorem filter_eq_singleton {α : Type} {l : List α} {q : α → Bool} (h : l.countP q = 1) :
    ∃ x, l.filter q = [x] ∧ x ∈ l ∧ q x = true := by
  have hlen : (l.filter q).length = 1 := by
    rw [← List.countP_eq_length_filter]; exact h
  obtain ⟨x, hx⟩ := List.length_eq_one.1 hlen
  have hmem : x ∈ l.filter q := by rw [hx]; exact List.mem_cons_self x []
  exact ⟨x, hx, (List.mem_filter.1 hmem).1, (List.mem_filter.1 hmem).2⟩

theorem countP_decide_eq_one {l : List Nat} (hnd : l.Nodup) {w : Nat} (hw : w ∈ l) :
    (l.countP fun x => decide (w = x)) = 1 := by
  induction l with
  | nil => cases hw
  | cons a l ih =>
      rw [List.countP_cons]
      rcases List.mem_cons.1 hw with rfl | hw'
      · have hz : (l.countP fun x => decide (w = x)) = 0 :=
          List.countP_eq_zero.2 fun x hx => by
            simp only [decide_eq_true_eq]
            rintro rfl
            exact (List.nodup_cons.1 hnd).1 hx
        simp [hz]
      · have hna : w ≠ a := by
          rintro rfl
          exact (List.nodup_cons.1 hnd).1 hw'
        simp [ih (List.nodup_cons.1 hnd).2 hw', hna]

/-! ### Satisfaction helpers -/

theorem satC_unique {b : Cand → Bool} {cst : Constraint} (h : satC b cst) {x y : Cand}
    (hx : x ∈ cst) (hy : y ∈ cst) (hbx : b x = true) (hby : b y = true) : x = y := by
  by_contra hne
  have h2 := countP_ge_two hx hy hne hbx hby
  unfold satC at h
  omega

theorem satC_singleton {b : Cand → Bool} {x : Cand} (h : satC b [x]) : b x = true := by
  unfold satC at h
  rw [List.countP_singleton] at h
  by_contra hb
  simp [hb] at h

theorem SatB.append_left {b : Cand → Bool} {P Q : List Constraint}
    (h : SatB b (P ++ Q)) : SatB b P :=
  fun c hc => h c (List.mem_append_left _ hc)

theorem SatB.append_right {b : Cand → Bool} {P Q : List Constraint}
    (h : SatB b (P ++ Q)) : SatB b Q :=
  fun c hc => h c (List.mem_append_right _ hc)

/-! ### Membership of the structural constraints -/

theorem mem_values {v : Nat} : v ∈ values ↔ 1 ≤ v ∧ v ≤ 9 := by
  simp only [values, List.mem_map, List.mem_range]
  constructor
  · rintro ⟨i, hi, rfl⟩
    omega
  · intro h
    exact ⟨v - 1, by omega, by omega⟩

theorem values_nodup : values.Nodup := by decide

theorem cellCands_mem {r c : Nat} (hr : r < 9) (hc : c < 9) :
    cellCands r c ∈ cellConstraints := by
  simp only [cellConstraints, List.mem_flatMap, List.mem_map, List.mem_range]
  exact ⟨r, hr, c, hc, rfl⟩

theorem rowCands_mem {v r : Nat} (hv : v ∈ values) (hr : r < 9) :
    rowCands v r ∈ rowConstraints := by
  simp only [rowConstraints, List.mem_flatMap, List.mem_map, List.mem_range]
  exact ⟨v, hv, r, hr, rfl⟩

theorem colCands_mem {v c : Nat} (hv : v ∈ values) (hc : c < 9) :
    colCands v c ∈ colConstraints := by
  simp only [colConstraints, List.mem_flatMap, List.mem_map, List.mem_range]
  exact ⟨v, hv, c, hc, rfl⟩

theorem boxCands_mem {v ro co : Nat} (hv : v ∈ values)
    (hro : ro ∈ ([0, 3, 6] : List Nat)) (hco : co ∈ ([0, 3, 6] : List Nat)) :
    boxCands v ro co ∈ boxConstraints := by
  simp only [boxConstraints, List.mem_flatMap, List.mem_map]
  exact ⟨v, hv, ro, hro, co, hco, rfl⟩

theorem mem_cellCands {r c : Nat} {t : Cand} :
    t ∈ cellCands r c ↔ ∃ v ∈ values, t = (r, c, v) := by
  simp only [cellCands, List.mem_map]
  constructor
  · rintro ⟨v, hv, rfl⟩
    exact ⟨v, hv, rfl⟩
  · rintro ⟨v, hv, rfl⟩
    exact ⟨v, hv, rfl⟩

/-- Extracting the four families from a satisfying valuation of the program
`set_fixed_constraints ++ S`. -/
theorem SatB.cell {b : Cand → Bool} {S : List Constraint}
    (h : SatB b (set_fixed_constraints ++ S)) {r c : Nat} (hr : r < 9) (hc : c < 9) :
    satC b (cellCands r c) := by
  apply h.append_left
  unfold set_fixed_constraints
  exact List.mem_append_left _ (List.mem_append_left _
    (List.mem_append_left _ (cellCands_mem hr hc)))

theorem SatB.row {b : Cand → Bool} {S : List Constraint}
    (h : SatB b (set_fixed_constraints ++ S)) {v r : Nat} (hv : v ∈ values) (hr : r < 9) :
    satC b (rowCands v r) := by
  apply h.append_left
  unfold set_fixed_constraints
  exact List.mem_append_left _ (List.mem_append_left _
    (List.mem_append_right _ (rowCands_mem hv hr)))

theorem SatB.col {b : Cand → Bool} {S : List Constraint}
    (h : SatB b (set_fixed_constraints ++ S)) {v c : Nat} (hv : v ∈ values) (hc : c < 9) :
    satC b (colCands v c) := by
  apply h.append_left
  unfold set_fixed_constraints
  exact List.mem_append_left _ (List.mem_append_right _ (colCands_mem hv hc))

theorem SatB.box {b : Cand → Bool} {S : List Constraint}
    (h : SatB b (set_fixed_constraints ++ S)) {v ro co : Nat} (hv : v ∈ values)
    (hro : ro ∈ ([0, 3, 6] : List Nat)) (hco : co ∈ ([0, 3, 6] : List Nat)) :
    satC b (boxCands v ro co) := by
  apply h.append_left
  unfold set_fixed_constraints
  exact List.mem_append_right _ (boxCands_mem hv hro hco)

/-- Every forcing constraint of a starting cell with positive value is in the
starting-cell constraint list. -/
theorem forcing_mem {cells : List StartCell} {t : StartCell} (ht : t ∈ cells)
    (hv : 0 < t.2.2) : [toCand t] ∈ startingConstraints cells := by
  simp only [startingConstraints, List.mem_filterMap]
  exact ⟨t, ht, by rw [if_pos hv]⟩

/-! ### The unique value of each cell under a satisfying valuation -/

theorem cellValue_spec {b : Cand → Bool} {r c : Nat} (h : satC b (cellCands r c)) :
    values.filter (fun v => b (r, c, v)) = [cellValue b r c] ∧
      cellValue b r c ∈ values ∧ b (r, c, cellValue b r c) = true := by
  unfold satC cellCands at h
  rw [List.countP_map] at h
  obtain ⟨x, hfil, hxl, hbx⟩ :=
    filter_eq_singleton (l := values) (q := fun v => b (r, c, v)) h
  have hcv : cellValue b r c = x := by
    unfold cellValue
    rw [hfil]
    rfl
  rw [hcv]
  exact ⟨hfil, hxl, hbx⟩

theorem cellValue_iff {b : Cand → Bool} {r c : Nat} (h : satC b (cellCands r c)) {v : Nat}
    (hv : v ∈ values) : b (r, c, v) = true ↔ cellValue b r c = v := by
  obtain ⟨hfil, hmem, hbv⟩ := cellValue_spec h
  constructor
  · intro hb
    have hvf : v ∈ values.filter fun w => b (r, c, w) := List.mem_filter.2 ⟨hv, hb⟩
    rw [hfil] at hvf
    exact (List.mem_singleton.1 hvf).symm
  · intro he
    rw [← he]
    exact hbv

theorem cell_filter_eq {b : Cand → Bool} {r c : Nat} (h : satC b (cellCands r c)) :
    (cellCands r c).filter b = [(r, c, cellValue b r c)] := by
  obtain ⟨hfil, _, _⟩ := cellValue_spec h
  unfold cellCands
  rw [List.filter_map]
  have hfil' : values.filter (b ∘ fun v => (r, c, v)) = [cellValue b r c] := hfil
  rw [hfil']
  rfl

/-- Under any satisfying valuation, extraction returns exactly the grid of
per-cell unique values, in row-major order. -/
theorem parse_eq_gridOf {b : Cand → Bool} {S : List Constraint}
    (h : SatB b (set_fixed_constraints ++ S)) :
    parse_solution b = gridOf (cellValue b) := by
  unfold parse_solution gridOf
  apply flatMap_congr
  intro r hr
  rw [List.mem_range] at hr
  have hcell : ∀ c ∈ List.range 9,
      (cellCands r c).filter b = [(r, c, cellValue b r c)] := by
    intro c hc
    exact cell_filter_eq (h.cell hr (List.mem_range.1 hc))
  rw [flatMap_congr hcell, flatMap_singleton_eq_map]

theorem countP_gridOf (F : Nat → Nat → Nat) (q : Cand → Bool) :
    (gridOf F).countP q =
      ((List.range 9).map fun r =>
        ((List.range 9).map fun c => if q (r, c, F r c) then 1 else 0).sum).sum := by
  unfold gridOf
  rw [countP_flatMap]
  congr 1
  apply List.map_congr_left
  intro r _
  rw [List.countP_map, ← sum_map_ite]
  rfl

theorem length_gridOf (F : Nat → Nat → Nat) : (gridOf F).length = 81 := by
  unfold gridOf
  rw [List.length_flatMap]
  have : ((List.range 9).map (List.length ∘ fun r =>
      (List.range 9).map fun c => ((r, c, F r c) : Cand))) = (List.range 9).map fun _ => 9 := by
    apply List.map_congr_left
    intro r _
    simp
  rw [this]
  decide

theorem mem_parse {b : Cand → Bool} {t : Cand} :
    t ∈ parse_solution b ↔ ∃ r < 9, ∃ c < 9, t ∈ cellCands r c ∧ b t = true := by
  unfold parse_solution
  simp only [List.mem_flatMap, List.mem_range, List.mem_filter]

/-! ### Construction lemmas -/

theorem startingConstraints_cons (t : StartCell) (rest : List StartCell) :
    startingConstraints (t :: rest) =
      if 0 < t.2.2 then [toCand t] :: startingConstraints rest
      else startingConstraints rest := by
  unfold startingConstraints
  rw [List.filterMap_cons]
  by_cases hv : 0 < t.2.2
  · rw [if_pos hv, if_pos hv]
  · rw [if_neg hv, if_neg hv]

theorem set_constraint_starting_cells_ok {cells : List StartCell}
    (h : ∀ t ∈ cells, InRange t) :
    set_constraint_starting_cells cells = Except.ok (startingConstraints cells) := by
  induction cells with
  | nil => rfl
  | cons t rest ih =>
      unfold set_constraint_starting_cells
      rw [startingConstraints_cons]
      by_cases hv : 0 < t.2.2
      · have hval : validKey t = true := by
          have hin := h t (List.mem_cons_self t rest)
          unfold InRange at hin
          unfold validKey
          simp only [decide_eq_true_eq]
          omega
        rw [if_pos hv, if_pos hv, hval, if_pos rfl,
          ih fun x hx => h x (List.mem_cons_of_mem t hx)]
        rfl
      · rw [if_neg hv, if_neg hv, ih fun x hx => h x (List.mem_cons_of_mem t hx)]

theorem solverInit_ok {cells : List StartCell} (h : ∀ t ∈ cells, InRange t) :
    solverInit cells = Except.ok (set_fixed_constraints ++ startingConstraints cells) := by
  unfold solverInit
  rw [set_constraint_starting_cells_ok h]
  rfl

/-! ### Assignments induced by a complete grid -/

theorem gval_gridAssign {F : Nat → Nat → Nat} {r c v : Nat} (hr : r < 9) (hc : c < 9)
    (hv1 : 1 ≤ v) (hv9 : v ≤ 9) :
    gval (gridAssign F) (r, c, v) = decide (F r c = v) := by
  unfold gval gridAssign
  rw [dif_pos ⟨hr, hc, hv1, (show v - 1 < 9 by omega)⟩]
  show decide (F r c = v - 1 + 1) = decide (F r c = v)
  rw [decide_eq_decide]
  omega

theorem mem_cellConstraints {cst : Constraint} :
    cst ∈ cellConstraints ↔ ∃ r < 9, ∃ c < 9, cellCands r c = cst := by
  simp only [cellConstraints, List.mem_flatMap, List.mem_map, List.mem_range]

theorem mem_rowConstraints {cst : Constraint} :
    cst ∈ rowConstraints ↔ ∃ v ∈ values, ∃ r < 9, rowCands v r = cst := by
  simp only [rowConstraints, List.mem_flatMap, List.mem_map, List.mem_range]

theorem mem_colConstraints {cst : Constraint} :
    cst ∈ colConstraints ↔ ∃ v ∈ values, ∃ c < 9, colCands v c = cst := by
  simp only [colConstraints, List.mem_flatMap, List.mem_map, List.mem_range]

theorem mem_boxConstraints {cst : Constraint} :
    cst ∈ boxConstraints ↔ ∃ v ∈ values, ∃ ro ∈ ([0, 3, 6] : List Nat),
      ∃ co ∈ ([0, 3, 6] : List Nat), boxCands v ro co = cst := by
  simp only [boxConstraints, List.mem_flatMap, List.mem_map]

theorem validGrid_satB_fixed {F : Nat → Nat → Nat} (hF : ValidGrid F) :
    SatB (gval (gridAssign F)) set_fixed_constraints := by
  intro cst hcst
  unfold set_fixed_constraints at hcst
  have hv19 : ∀ v ∈ values, 1 ≤ v ∧ v ≤ 9 := fun v hv => mem_values.1 hv
  rcases List.mem_append.1 hcst with hcst | hbox
  · rcases List.mem_append.1 hcst with hcst | hcol
    · rcases List.mem_append.1 hcst with hcell | hrow
      · obtain ⟨r, hr, c, hc, rfl⟩ := mem_cellConstraints.1 hcell
        unfold satC cellCands
        rw [List.countP_map]
        rw [List.countP_congr (q := fun v => decide (F r c = v))]
        · exact countP_decide_eq_one values_nodup (hF.1 r hr c hc)
        · intro v hv
          simp only [Function.comp]
          rw [gval_gridAssign hr hc (hv19 v hv).1 (hv19 v hv).2]
      · obtain ⟨v, hv, r, hr, rfl⟩ := mem_rowConstraints.1 hrow
        unfold satC rowCands
        rw [List.countP_map]
        rw [List.countP_congr (q := fun c => decide (F r c = v))]
        · exact hF.2.1 v hv r hr
        · intro c hc
          rw [List.mem_range] at hc
          simp only [Function.comp]
          rw [gval_gridAssign hr hc (hv19 v hv).1 (hv19 v hv).2]
    · obtain ⟨v, hv, c, hc, rfl⟩ := mem_colConstraints.1 hcol
      unfold satC colCands
      rw [List.countP_map]
      rw [List.countP_congr (q := fun r => decide (F r c = v))]
      · exact hF.2.2.1 v hv c hc
      · intro r hr
        rw [List.mem_range] at hr
        simp only [Function.comp]
        rw [gval_gridAssign hr hc (hv19 v hv).1 (hv19 v hv).2]
  · obtain ⟨v, hv, ro, hro, co, hco, rfl⟩ := mem_boxConstraints.1 hbox
    have hro6 : ro ≤ 6 := by
      have : ro = 0 ∨ ro = 3 ∨ ro = 6 := by simpa using hro
      omega
    have hco6 : co ≤ 6 := by
      have : co = 0 ∨ co = 3 ∨ co = 6 := by simpa using hco
      omega
    unfold satC boxCands
    rw [countP_flatMap]
    have hbox9 := hF.2.2.2 v hv ro hro co hco
    rw [countP_flatMap] at hbox9
    rw [← hbox9]
    congr 1
    apply List.map_congr_left
    intro row hrow
    rw [List.mem_range] at hrow
    rw [List.countP_map, List.countP_map]
    apply List.countP_congr
    intro col hcol
    rw [List.mem_range] at hcol
    simp only [Function.comp]
    rw [gval_gridAssign (by omega) (by omega) (hv19 v hv).1 (hv19 v hv).2]

theorem mem_gridCells {F : Nat → Nat → Nat} {t : StartCell} :
    t ∈ gridCells F ↔
      ∃ r : Nat, r < 9 ∧ ∃ c : Nat, c < 9 ∧
        (((r : Int), (c : Int), (F r c : Int)) : StartCell) = t := by
  simp only [gridCells, List.mem_flatMap, List.mem_map, List.mem_range]

theorem validGrid_satB_starting {F : Nat → Nat → Nat}
    (hvals : ∀ r < 9, ∀ c < 9, F r c ∈ values) {cells : List StartCell}
    (hsub : ∀ t ∈ cells, t ∈ gridCells F) :
    SatB (gval (gridAssign F)) (startingConstraints cells) := by
  intro cst hcst
  simp only [startingConstraints, List.mem_filterMap] at hcst
  obtain ⟨t, ht, hsome⟩ := hcst
  by_cases hv : 0 < t.2.2
  · rw [if_pos hv] at hsome
    obtain rfl := Option.some.inj hsome
    obtain ⟨r, hr, c, hc, rfl⟩ := mem_gridCells.1 (hsub t ht)
    unfold satC
    rw [List.countP_singleton, if_pos]
    have hvv := mem_values.1 (hvals r hr c hc)
    show gval (gridAssign F) (r, c, F r c) = true
    rw [gval_gridAssign hr hc hvv.1 hvv.2]
    simp
  · rw [if_neg hv] at hsome
    cases hsome

theorem SatB.append {b : Cand → Bool} {P Q : List Constraint}
    (hP : SatB b P) (hQ : SatB b Q) : SatB b (P ++ Q) := fun cst hcst => by
  rcases List.mem_append.1 hcst with h | h
  · exact hP cst h
  · exact hQ cst h

/-- A complete valid grid satisfies the whole program built from any
starting-cell list that fixes (a subset of) that grid. -/
theorem validGrid_satB {F : Nat → Nat → Nat} (hF : ValidGrid F) {cells : List StartCell}
    (hsub : ∀ t ∈ cells, t ∈ gridCells F) :
    SatB (gval (gridAssign F)) (set_fixed_constraints ++ startingConstraints cells) :=
  (validGrid_satB_fixed hF).append (validGrid_satB_starting hF.1 hsub)

/-! ### Remaining membership shapes and small helpers -/

theorem mem_rowCands {v r : Nat} {t : Cand} :
    t ∈ rowCands v r ↔ ∃ c < 9, (r, c, v) = t := by
  simp only [rowCands, List.mem_map, List.mem_range]

theorem mem_colCands {v c : Nat} {t : Cand} :
    t ∈ colCands v c ↔ ∃ r < 9, (r, c, v) = t := by
  simp only [colCands, List.mem_map, List.mem_range]

theorem mem_boxCands {v ro co : Nat} {t : Cand} :
    t ∈ boxCands v ro co ↔ ∃ r0 < 3, ∃ c0 < 3, (r0 + ro, c0 + co, v) = t := by
  simp only [boxCands, List.mem_flatMap, List.mem_map, List.mem_range]

theorem startingConstraints_length (cells : List StartCell) :
    (startingConstraints cells).length = cells.countP fun t => decide (0 < t.2.2) := by
  induction cells with
  | nil => rfl
  | cons t rest ih =>
      rw [startingConstraints_cons, List.countP_cons]
      by_cases hv : 0 < t.2.2
      · simp [hv, ih]
      · simp [hv, ih]

theorem set_constraint_starting_cells_error_iff (cells : List StartCell) :
    (∃ e, set_constraint_starting_cells cells = Except.error e) ↔
      ∃ t ∈ cells, 0 < t.2.2 ∧ validKey t = false := by
  induction cells with
  | nil =>
      constructor
      · rintro ⟨e, he⟩
        cases he
      · rintro ⟨t, ht, -⟩
        cases ht
  | cons t rest ih =>
      unfold set_constraint_starting_cells
      by_cases hv : 0 < t.2.2
      · by_cases hk : validKey t = true
        · rw [if_pos hv, if_pos hk]
          constructor
          · rintro ⟨e, he⟩
            cases hrest : set_constraint_starting_cells rest with
            | ok l => rw [hrest] at he; cases he
            | error e' =>
                obtain ⟨t', ht', h'⟩ := ih.1 ⟨e', hrest⟩
                exact ⟨t', List.mem_cons_of_mem _ ht', h'⟩
          · rintro ⟨t', ht', hpos, hkey⟩
            rcases List.mem_cons.1 ht' with rfl | ht''
            · rw [hk] at hkey
              cases hkey
            · obtain ⟨e, he⟩ := ih.2 ⟨t', ht'', hpos, hkey⟩
              exact ⟨e, by rw [he]; rfl⟩
        · rw [if_pos hv, if_neg hk]
          constructor
          · intro _
            exact ⟨t, List.mem_cons_self t rest, hv, by simpa using hk⟩
          · intro _
            exact ⟨"KeyError", rfl⟩
      · rw [if_neg hv, ih]
        constructor
        · rintro ⟨t', ht', h'⟩
          exact ⟨t', List.mem_cons_of_mem _ ht', h'⟩
        · rintro ⟨t', ht', hpos, hkey⟩
          rcases List.mem_cons.1 ht' with rfl | ht''
          · exact absurd hpos hv
          · exact ⟨t', ht'', hpos, hkey⟩

theorem filter_flatMap {α β : Type} (l : List α) (f : α → List β) (p : β → Bool) :
    (l.flatMap f).filter p = l.flatMap fun a => (f a).filter p := by
  induction l with
  | nil => rfl
  | cons a l ih => simp [List.flatMap_cons, List.filter_append, ih]

/-! ### Claims -/

/-- C1: for every list of fixed cells with in-range coordinates and values,
construction yields the 324 structural constraints plus the forcing
constraints, and `solve_puzzle` returns `Optimal` exactly when a fully
satisfying assignment of the 729 candidates exists and `Infeasible` exactly
when the constraint system has no satisfying assignment. -/
theorem C1_solve_status (cells : List StartCell) (hin : ∀ t ∈ cells, InRange t) :
    solverInit cells = Except.ok (set_fixed_constraints ++ startingConstraints cells) ∧
    (solve_puzzle (set_fixed_constraints ++ startingConstraints cells) = SolveStatus.Optimal ↔
      Satisfiable (set_fixed_constraints ++ startingConstraints cells)) ∧
    (solve_puzzle (set_fixed_constraints ++ startingConstraints cells) = SolveStatus.Infeasible ↔
      ¬ Satisfiable (set_fixed_constraints ++ startingConstraints cells)) := by
  refine ⟨solverInit_ok hin, ?_, ?_⟩ <;>
    unfold solve_puzzle <;>
    by_cases h : Satisfiable (set_fixed_constraints ++ startingConstraints cells) <;>
    simp [h]

theorem C1_witness :
    (∀ t ∈ [((0 : Int), 0, 5)], InRange t) ∧
    (solverInit [((0 : Int), 0, 5)] =
        Except.ok (set_fixed_constraints ++ startingConstraints [((0 : Int), 0, 5)]) ∧
      (solve_puzzle (set_fixed_constraints ++ startingConstraints [((0 : Int), 0, 5)]) =
          SolveStatus.Optimal ↔
        Satisfiable (set_fixed_constraints ++ startingConstraints [((0 : Int), 0, 5)])) ∧
      (solve_puzzle (set_fixed_constraints ++ startingConstraints [((0 : Int), 0, 5)]) =
          SolveStatus.Infeasible ↔
        ¬ Satisfiable (set_fixed_constraints ++ startingConstraints [((0 : Int), 0, 5)]))) :=
  ⟨by decide, C1_solve_status [((0 : Int), 0, 5)] (by decide)⟩

/-- C5 counterexample: the entry `(0, 0, -1)` has value outside `[0, 9]`, yet
construction succeeds with no error and no forcing constraint, contradicting
the claim that every out-of-range entry makes construction fail. -/
theorem C5_counterexample :
    solverInit [((0 : Int), 0, -1)] = Except.ok set_fixed_constraints := by
  have h : solverInit [((0 : Int), 0, -1)] = Except.ok (set_fixed_constraints ++ []) := rfl
  rw [h, List.append_nil]

/-- C5 amended: construction fails — with an unhandled `KeyError`, not a
dedicated InvalidInput error — exactly when some entry has positive value
whose `(row, col, value)` is not a decision-variable key (row or col outside
`[0, 8]`, or value outside `[1, 9]`); entries with value ≤ 0, including
negative values and out-of-range coordinates with value 0, are accepted. -/
theorem C5_amended_rejection (cells : List StartCell) :
    (∃ e, solverInit cells = Except.error e) ↔
      ∃ t ∈ cells, 0 < t.2.2 ∧ validKey t = false := by
  rw [← set_constraint_starting_cells_error_iff]
  unfold solverInit
  constructor
  · rintro ⟨e, he⟩
    cases hs : set_constraint_starting_cells cells with
    | ok l => rw [hs] at he; cases he
    | error e' => exact ⟨e', rfl⟩
  · rintro ⟨e, he⟩
    exact ⟨e, by rw [he]; rfl⟩

/-- C6: constructing from the empty starting-cell list succeeds and adds zero
forcing constraints. (The claim's other half — that `Solver()` with no
argument is also legal — fails on the source: `starting_cells` has no
default value, so the no-argument call raises a `TypeError` before
construction, although the repository's own tests call `Solver()`.) -/
theorem C6_empty_list :
    solverInit [] = Except.ok set_fixed_constraints ∧ startingConstraints [] = [] := by
  constructor
  · have h : solverInit [] = Except.ok (set_fixed_constraints ++ []) := rfl
    rw [h, List.append_nil]
  · rfl

/-- C7: construction builds exactly 81 cell constraints, 81 row constraints,
81 column constraints and 81 box constraints — 324 structural constraints,
independent of the input — plus one forcing constraint per entry with
positive value. -/
theorem C7_constraint_counts (cells : List StartCell) (hin : ∀ t ∈ cells, InRange t) :
    solverInit cells = Except.ok (set_fixed_constraints ++ startingConstraints cells) ∧
    cellConstraints.length = 81 ∧ rowConstraints.length = 81 ∧
    colConstraints.length = 81 ∧ boxConstraints.length = 81 ∧
    set_fixed_constraints.length = 324 ∧
    (startingConstraints cells).length = cells.countP fun t => decide (0 < t.2.2) :=
  ⟨solverInit_ok hin, by decide, by decide, by decide, by decide, by decide,
    startingConstraints_length cells⟩

theorem C7_witness :
    (∀ t ∈ [((0 : Int), 0, 5), (1, 1, 0)], InRange t) ∧
    (solverInit [((0 : Int), 0, 5), (1, 1, 0)] =
        Except.ok (set_fixed_constraints ++ startingConstraints [((0 : Int), 0, 5), (1, 1, 0)]) ∧
      cellConstraints.length = 81 ∧ rowConstraints.length = 81 ∧
      colConstraints.length = 81 ∧ boxConstraints.length = 81 ∧
      set_fixed_constraints.length = 324 ∧
      (startingConstraints [((0 : Int), 0, 5), (1, 1, 0)]).length =
        ([((0 : Int), 0, 5), (1, 1, 0)].countP fun t => decide (0 < t.2.2))) :=
  ⟨by decide, C7_constraint_counts [((0 : Int), 0, 5), (1, 1, 0)] (by decide)⟩

/-- C9 counterexample: on a valuation with zero true candidates in every
cell — which a backend or constraint bug could produce — `parse_solution`
does not assert, abort, or signal an internal error: it silently returns an
empty 0-triple board instead of an 81-triple one. -/
theorem C9_counterexample : parse_solution (fun _ => false) = [] := by rfl

/-- C9 amended: extraction performs no per-cell assertion and has no
error path: for every valuation it silently returns exactly the true
candidates in variable order, however many or few there are. -/
theorem C9_no_assertion (b : Cand → Bool) : parse_solution b = allCands.filter b := by
  unfold parse_solution allCands
  rw [filter_flatMap]
  apply flatMap_congr
  intro r _
  rw [filter_flatMap]

/-- C10: two starting entries for the same coordinate with different positive
values are both accepted at construction, both become forcing constraints
(neither rejection nor last-write-wins), and the resulting program is not
reported `Optimal`. -/
theorem C10_conflicting_duplicates (cells : List StartCell) (t1 t2 : StartCell)
    (hin : ∀ t ∈ cells, InRange t) (h1 : t1 ∈ cells) (h2 : t2 ∈ cells)
    (hr : t1.1 = t2.1) (hc : t1.2.1 = t2.2.1)
    (hv1 : 0 < t1.2.2) (hv2 : 0 < t2.2.2) (hne : t1.2.2 ≠ t2.2.2) :
    solverInit cells = Except.ok (set_fixed_constraints ++ startingConstraints cells) ∧
    [toCand t1] ∈ startingConstraints cells ∧
    [toCand t2] ∈ startingConstraints cells ∧
    solve_puzzle (set_fixed_constraints ++ startingConstraints cells) ≠
      SolveStatus.Optimal := by
  refine ⟨solverInit_ok hin, forcing_mem h1 hv1, forcing_mem h2 hv2, ?_⟩
  have hin1 := hin t1 h1
  have hin2 := hin t2 h2
  unfold InRange at hin1 hin2
  have hunsat : ¬ Satisfiable (set_fixed_constraints ++ startingConstraints cells) := by
    rintro ⟨g, hg⟩
    have hb1 : gval g (toCand t1) = true :=
      satC_singleton (hg _ (List.mem_append_right _ (forcing_mem h1 hv1)))
    have hb2 : gval g (toCand t2) = true :=
      satC_singleton (hg _ (List.mem_append_right _ (forcing_mem h2 hv2)))
    have hcell := hg.cell (r := t1.1.toNat) (c := t1.2.1.toNat) (by omega) (by omega)
    have hm1 : toCand t1 ∈ cellCands t1.1.toNat t1.2.1.toNat :=
      mem_cellCands.2 ⟨t1.2.2.toNat, mem_values.2 ⟨by omega, by omega⟩, rfl⟩
    have hm2 : toCand t2 ∈ cellCands t1.1.toNat t1.2.1.toNat := by
      apply mem_cellCands.2
      refine ⟨t2.2.2.toNat, mem_values.2 ⟨by omega, by omega⟩, ?_⟩
      unfold toCand
      rw [hr, hc]
    have heq := satC_unique hcell hm1 hm2 hb1 hb2
    have hval : t1.2.2.toNat = t2.2.2.toNat := congrArg (fun x => x.2.2) heq
    omega
  unfold solve_puzzle
  rw [if_neg hunsat]
  simp

theorem C10_witness :
    (∀ t ∈ [((0 : Int), 0, 1), (0, 0, 2)], InRange t) ∧
    (solverInit [((0 : Int), 0, 1), (0, 0, 2)] =
        Except.ok (set_fixed_constraints ++
          startingConstraints [((0 : Int), 0, 1), (0, 0, 2)]) ∧
      [toCand ((0 : Int), 0, 1)] ∈ startingConstraints [((0 : Int), 0, 1), (0, 0, 2)] ∧
      [toCand ((0 : Int), 0, 2)] ∈ startingConstraints [((0 : Int), 0, 1), (0, 0, 2)] ∧
      solve_puzzle (set_fixed_constraints ++
          startingConstraints [((0 : Int), 0, 1), (0, 0, 2)]) ≠ SolveStatus.Optimal) :=
  ⟨by decide,
    C10_conflicting_duplicates [((0 : Int), 0, 1), (0, 0, 2)] ((0 : Int), 0, 1)
      ((0 : Int), 0, 2) (by decide) (by decide) (by decide) rfl rfl (by decide) (by decide)
      (by decide)⟩

/-- C4: two fixed cells with equal positive values at distinct coordinates in
the same row, or the same column, or the same 3x3 box make `solve_puzzle`
report `Infeasible` — a normal status, with construction succeeding rather
than raising. -/
theorem C4_conflict_infeasible (cells : List StartCell) (t1 t2 : StartCell)
    (hin : ∀ t ∈ cells, InRange t) (h1 : t1 ∈ cells) (h2 : t2 ∈ cells)
    (hv1 : 0 < t1.2.2) (hveq : t1.2.2 = t2.2.2)
    (hdiff : t1.1 ≠ t2.1 ∨ t1.2.1 ≠ t2.2.1)
    (hshare : t1.1 = t2.1 ∨ t1.2.1 = t2.2.1 ∨
      (t1.1 / 3 = t2.1 / 3 ∧ t1.2.1 / 3 = t2.2.1 / 3)) :
    solverInit cells = Except.ok (set_fixed_constraints ++ startingConstraints cells) ∧
    solve_puzzle (set_fixed_constraints ++ startingConstraints cells) =
      SolveStatus.Infeasible := by
  refine ⟨solverInit_ok hin, ?_⟩
  have hin1 := hin t1 h1
  have hin2 := hin t2 h2
  unfold InRange at hin1 hin2
  have hv2 : 0 < t2.2.2 := by omega
  have hunsat : ¬ Satisfiable (set_fixed_constraints ++ startingConstraints cells) := by
    rintro ⟨g, hg⟩
    have hb1 : gval g (toCand t1) = true :=
      satC_singleton (hg _ (List.mem_append_right _ (forcing_mem h1 hv1)))
    have hb2 : gval g (toCand t2) = true :=
      satC_singleton (hg _ (List.mem_append_right _ (forcing_mem h2 hv2)))
    have hvv : t1.2.2.toNat ∈ values := mem_values.2 ⟨by omega, by omega⟩
    have hne12 : toCand t1 ≠ toCand t2 := by
      intro h
      have e1 : t1.1.toNat = t2.1.toNat := congrArg (fun x => x.1) h
      have e2 : t1.2.1.toNat = t2.2.1.toNat := congrArg (fun x => x.2.1) h
      omega
    rcases hshare with ht | ht | ⟨htr, htc⟩
    · have hcst := hg.row (v := t1.2.2.toNat) (r := t1.1.toNat) hvv (by omega)
      have hm1 : toCand t1 ∈ rowCands t1.2.2.toNat t1.1.toNat :=
        mem_rowCands.2 ⟨t1.2.1.toNat, by omega, rfl⟩
      have hm2 : toCand t2 ∈ rowCands t1.2.2.toNat t1.1.toNat := by
        apply mem_rowCands.2
        refine ⟨t2.2.1.toNat, by omega, ?_⟩
        simp only [toCand, Prod.mk.injEq, true_and, and_true]
        omega
      exact hne12 (satC_unique hcst hm1 hm2 hb1 hb2)
    · have hcst := hg.col (v := t1.2.2.toNat) (c := t1.2.1.toNat) hvv (by omega)
      have hm1 : toCand t1 ∈ colCands t1.2.2.toNat t1.2.1.toNat :=
        mem_colCands.2 ⟨t1.1.toNat, by omega, rfl⟩
      have hm2 : toCand t2 ∈ colCands t1.2.2.toNat t1.2.1.toNat := by
        apply mem_colCands.2
        refine ⟨t2.1.toNat, by omega, ?_⟩
        simp only [toCand, Prod.mk.injEq, true_and, and_true]
        omega
      exact hne12 (satC_unique hcst hm1 hm2 hb1 hb2)
    · have hro : (3 * (t1.1.toNat / 3)) ∈ ([0, 3, 6] : List Nat) := by
        have h3 : t1.1.toNat / 3 = 0 ∨ t1.1.toNat / 3 = 1 ∨ t1.1.toNat / 3 = 2 := by omega
        rcases h3 with h | h | h <;> rw [h] <;> decide
      have hco : (3 * (t1.2.1.toNat / 3)) ∈ ([0, 3, 6] : List Nat) := by
        have h3 : t1.2.1.toNat / 3 = 0 ∨ t1.2.1.toNat / 3 = 1 ∨ t1.2.1.toNat / 3 = 2 := by
          omega
        rcases h3 with h | h | h <;> rw [h] <;> decide
      have hcst := hg.box (v := t1.2.2.toNat) hvv hro hco
      have hm1 : toCand t1 ∈
          boxCands t1.2.2.toNat (3 * (t1.1.toNat / 3)) (3 * (t1.2.1.toNat / 3)) := by
        apply mem_boxCands.2
        refine ⟨t1.1.toNat % 3, by omega, t1.2.1.toNat % 3, by omega, ?_⟩
        simp only [toCand, Prod.mk.injEq, true_and, and_true]
        omega
      have hm2 : toCand t2 ∈
          boxCands t1.2.2.toNat (3 * (t1.1.toNat / 3)) (3 * (t1.2.1.toNat / 3)) := by
        apply mem_boxCands.2
        refine ⟨t2.1.toNat % 3, by omega, t2.2.1.toNat % 3, by omega, ?_⟩
        simp only [toCand, Prod.mk.injEq, true_and, and_true]
        omega
      exact hne12 (satC_unique hcst hm1 hm2 hb1 hb2)
  unfold solve_puzzle
  rw [if_neg hunsat]

theorem C4_witness :
    (∀ t ∈ [((0 : Int), 0, 1), (0, 1, 1)], InRange t) ∧
    (solverInit [((0 : Int), 0, 1), (0, 1, 1)] =
        Except.ok (set_fixed_constraints ++
          startingConstraints [((0 : Int), 0, 1), (0, 1, 1)]) ∧
      solve_puzzle (set_fixed_constraints ++
          startingConstraints [((0 : Int), 0, 1), (0, 1, 1)]) = SolveStatus.Infeasible) :=
  ⟨by decide,
    C4_conflict_infeasible [((0 : Int), 0, 1), (0, 1, 1)] ((0 : Int), 0, 1) ((0 : Int), 1, 1)
      (by decide) (by decide) (by decide) (by decide) rfl (by decide) (by decide)⟩

/-- C3: every fixed cell with nonzero value supplied at construction appears
in the parsed solution, and it is the only triple of the solution at that
coordinate — the solution assigns exactly that value there. -/
theorem C3_fixed_cells_preserved (cells : List StartCell) (t : StartCell)
    (b : Cand → Bool) (hin : ∀ u ∈ cells, InRange u) (ht : t ∈ cells) (hv : 0 < t.2.2)
    (hb : SatB b (set_fixed_constraints ++ startingConstraints cells)) :
    toCand t ∈ parse_solution b ∧
      ∀ u ∈ parse_solution b, u.1 = t.1.toNat → u.2.1 = t.2.1.toNat → u = toCand t := by
  have hint := hin t ht
  unfold InRange at hint
  have hbt : b (toCand t) = true :=
    satC_singleton (hb _ (List.mem_append_right _ (forcing_mem ht hv)))
  have hmem : toCand t ∈ cellCands t.1.toNat t.2.1.toNat :=
    mem_cellCands.2 ⟨t.2.2.toNat, mem_values.2 ⟨by omega, by omega⟩, rfl⟩
  constructor
  · exact mem_parse.2 ⟨t.1.toNat, by omega, t.2.1.toNat, by omega, hmem, hbt⟩
  · intro u hu hur huc
    obtain ⟨r, hr, c, hc, humem, hub⟩ := mem_parse.1 hu
    obtain ⟨v', hv', rfl⟩ := mem_cellCands.1 humem
    have hru : r = t.1.toNat := hur
    have hcu : c = t.2.1.toNat := huc
    subst hru
    subst hcu
    have hcell := hb.cell (r := t.1.toNat) (c := t.2.1.toNat) (by omega) (by omega)
    exact satC_unique hcell (mem_cellCands.2 ⟨v', hv', rfl⟩) hmem hub hbt

theorem C3_witness :
    ((∀ u ∈ gridCells demoGrid, InRange u) ∧
      (((0 : Int), 0, 1) : StartCell) ∈ gridCells demoGrid ∧
      (0 : Int) < (((0 : Int), 0, 1) : StartCell).2.2 ∧
      SatB (gval (gridAssign demoGrid))
        (set_fixed_constraints ++ startingConstraints (gridCells demoGrid))) ∧
    (toCand (((0 : Int), 0, 1) : StartCell) ∈ parse_solution (gval (gridAssign demoGrid)) ∧
      ∀ u ∈ parse_solution (gval (gridAssign demoGrid)),
        u.1 = (((0 : Int), 0, 1) : StartCell).1.toNat →
        u.2.1 = (((0 : Int), 0, 1) : StartCell).2.1.toNat →
        u = toCand (((0 : Int), 0, 1) : StartCell)) :=
  have hsat : SatB (gval (gridAssign demoGrid))
      (set_fixed_constraints ++ startingConstraints (gridCells demoGrid)) :=
    validGrid_satB (by decide) fun _ h => h
  ⟨⟨by decide, by decide, by decide, hsat⟩,
    C3_fixed_cells_preserved (gridCells demoGrid) (((0 : Int), 0, 1) : StartCell)
      (gval (gridAssign demoGrid)) (by decide) (by decide) (by decide) hsat⟩

theorem gridCells_map_toCand (F : Nat → Nat → Nat) :
    (gridCells F).map toCand = gridOf F := by
  unfold gridCells gridOf
  rw [List.map_flatMap]
  apply flatMap_congr
  intro r _
  rw [List.map_map]
  rfl

/-- C8: solving an already-complete valid Sudoku grid supplied as the 81
fixed cells that fix every cell returns `Optimal`, and extraction returns
exactly that grid. -/
theorem C8_complete_grid (F : Nat → Nat → Nat) (cells : List StartCell)
    (hF : ValidGrid F) (hmem : ∀ t, t ∈ cells ↔ t ∈ gridCells F) :
    solverInit cells = Except.ok (set_fixed_constraints ++ startingConstraints cells) ∧
    solve_puzzle (set_fixed_constraints ++ startingConstraints cells) =
      SolveStatus.Optimal ∧
    ∀ b : Cand → Bool, SatB b (set_fixed_constraints ++ startingConstraints cells) →
      parse_solution b = (gridCells F).map toCand := by
  have hin : ∀ t ∈ cells, InRange t := by
    intro t ht
    obtain ⟨r, hr, c, hc, rfl⟩ := mem_gridCells.1 ((hmem t).1 ht)
    have hvb := mem_values.1 (hF.1 r hr c hc)
    show (0 : Int) ≤ (r : Int) ∧ (r : Int) < 9 ∧ (0 : Int) ≤ (c : Int) ∧
      (c : Int) < 9 ∧ (0 : Int) ≤ (F r c : Int) ∧ (F r c : Int) ≤ 9
    omega
  have hsat : Satisfiable (set_fixed_constraints ++ startingConstraints cells) :=
    ⟨gridAssign F, validGrid_satB hF fun t ht => (hmem t).1 ht⟩
  refine ⟨solverInit_ok hin, by unfold solve_puzzle; rw [if_pos hsat], ?_⟩
  intro b hb
  rw [parse_eq_gridOf hb, gridCells_map_toCand]
  unfold gridOf
  apply flatMap_congr
  intro r hr
  rw [List.mem_range] at hr
  apply List.map_congr_left
  intro c hc
  rw [List.mem_range] at hc
  have hvb := mem_values.1 (hF.1 r hr c hc)
  have htin : (((r : Int), (c : Int), (F r c : Int)) : StartCell) ∈ cells :=
    (hmem _).2 (mem_gridCells.2 ⟨r, hr, c, hc, rfl⟩)
  have hforce : [toCand (((r : Int), (c : Int), (F r c : Int)) : StartCell)] ∈
      startingConstraints cells :=
    forcing_mem htin (by show (0 : Int) < (F r c : Int); omega)
  have hbF : b (r, c, F r c) = true :=
    satC_singleton (hb _ (List.mem_append_right _ hforce))
  have hcv : cellValue b r c = F r c :=
    (cellValue_iff (hb.cell hr hc) (hF.1 r hr c hc)).1 hbF
  rw [hcv]

theorem C8_witness :
    (ValidGrid demoGrid ∧ (∀ t, t ∈ gridCells demoGrid ↔ t ∈ gridCells demoGrid)) ∧
    (solverInit (gridCells demoGrid) =
        Except.ok (set_fixed_constraints ++ startingConstraints (gridCells demoGrid)) ∧
      solve_puzzle (set_fixed_constraints ++ startingConstraints (gridCells demoGrid)) =
        SolveStatus.Optimal ∧
      ∀ b : Cand → Bool,
        SatB b (set_fixed_constraints ++ startingConstraints (gridCells demoGrid)) →
        parse_solution b = (gridCells demoGrid).map toCand) :=
  ⟨⟨by decide, fun _ => Iff.rfl⟩,
    C8_complete_grid demoGrid (gridCells demoGrid) (by decide) fun _ => Iff.rfl⟩

theorem mem_gridOf {F : Nat → Nat → Nat} {u : Cand} :
    u ∈ gridOf F ↔ ∃ r : Nat, r < 9 ∧ ∃ c : Nat, c < 9 ∧ (r, c, F r c) = u := by
  simp only [gridOf, List.mem_flatMap, List.mem_map, List.mem_range]

theorem ite_one_congr {p q : Prop} [Decidable p] [Decidable q] (h : p ↔ q) :
    (if p then (1 : Nat) else 0) = if q then 1 else 0 := by
  by_cases hp : p
  · rw [if_pos hp, if_pos (h.1 hp)]
  · rw [if_neg hp, if_neg fun hq => hp (h.2 hq)]

/-- C2: on every in-range input, any satisfying assignment found by the
backend parses to exactly 81 triples covering every cell exactly once, with
every value in `[1, 9]`, and within every row, every column and every 3x3
box each value 1..9 occurring exactly once. -/
theorem C2_solution_valid (cells : List StartCell) (b : Cand → Bool)
    (hin : ∀ t ∈ cells, InRange t)
    (hb : SatB b (set_fixed_constraints ++ startingConstraints cells)) :
    (parse_solution b).length = 81 ∧
    (∀ r < 9, ∀ c < 9,
      ((parse_solution b).countP fun u => decide (u.1 = r ∧ u.2.1 = c)) = 1) ∧
    (∀ u ∈ parse_solution b, u.1 < 9 ∧ u.2.1 < 9 ∧ 1 ≤ u.2.2 ∧ u.2.2 ≤ 9) ∧
    (∀ r < 9, ∀ v ∈ values,
      ((parse_solution b).countP fun u => decide (u.1 = r ∧ u.2.2 = v)) = 1) ∧
    (∀ c < 9, ∀ v ∈ values,
      ((parse_solution b).countP fun u => decide (u.2.1 = c ∧ u.2.2 = v)) = 1) ∧
    (∀ ro ∈ ([0, 3, 6] : List Nat), ∀ co ∈ ([0, 3, 6] : List Nat), ∀ v ∈ values,
      ((parse_solution b).countP fun u =>
        decide (ro ≤ u.1 ∧ u.1 < ro + 3 ∧ co ≤ u.2.1 ∧ u.2.1 < co + 3 ∧ u.2.2 = v)) = 1) := by
  have hparse := parse_eq_gridOf hb
  have hcell : ∀ r, r < 9 → ∀ c, c < 9 → satC b (cellCands r c) :=
    fun r hr c hc => hb.cell hr hc
  set F := cellValue b with hFdef
  have hFval : ∀ r, r < 9 → ∀ c, c < 9 → F r c ∈ values :=
    fun r hr c hc => (cellValue_spec (hcell r hr c hc)).2.1
  have hFiff : ∀ r, r < 9 → ∀ c, c < 9 → ∀ v, v ∈ values →
      (b (r, c, v) = true ↔ F r c = v) :=
    fun r hr c hc v hv => cellValue_iff (hcell r hr c hc) hv
  rw [hparse]
  refine ⟨length_gridOf F, ?_, ?_, ?_, ?_, ?_⟩
  · intro r0 hr0 c0 hc0
    rw [countP_gridOf]
    refine Eq.trans (sum_map_range_single hr0 ?_) ?_
    · intro i hi hne
      apply sum_map_range_zero
      intro j hj
      show (if decide (i = r0 ∧ j = c0) then (1 : Nat) else 0) = 0
      simp [hne]
    · refine Eq.trans (sum_map_range_single hc0 ?_) ?_
      · intro j hj hne
        show (if decide (r0 = r0 ∧ j = c0) then (1 : Nat) else 0) = 0
        simp [hne]
      · show (if decide (r0 = r0 ∧ c0 = c0) then (1 : Nat) else 0) = 1
        simp
  · intro u hu
    obtain ⟨r, hr, c, hc, rfl⟩ := mem_gridOf.1 hu
    have hvb := mem_values.1 (hFval r hr c hc)
    exact ⟨hr, hc, hvb.1, hvb.2⟩
  · intro r0 hr0 v hv
    rw [countP_gridOf]
    refine Eq.trans (sum_map_range_single hr0 ?_) ?_
    · intro i hi hne
      apply sum_map_range_zero
      intro j hj
      show (if decide (i = r0 ∧ F i j = v) then (1 : Nat) else 0) = 0
      simp [hne]
    · have hrow := hb.row hv hr0
      unfold satC rowCands at hrow
      rw [List.countP_map, ← sum_map_ite] at hrow
      refine Eq.trans ?_ hrow
      apply congrArg List.sum
      apply List.map_congr_left
      intro c hc
      rw [List.mem_range] at hc
      show (if decide (r0 = r0 ∧ F r0 c = v) then (1 : Nat) else 0) =
        if b (r0, c, v) then 1 else 0
      apply ite_one_congr
      constructor
      · intro hd
        exact (hFiff r0 hr0 c hc v hv).2 (of_decide_eq_true hd).2
      · intro hbv
        exact decide_eq_true ⟨rfl, (hFiff r0 hr0 c hc v hv).1 hbv⟩
  · intro c0 hc0 v hv
    rw [countP_gridOf]
    have hcol := hb.col hv hc0
    unfold satC colCands at hcol
    rw [List.countP_map, ← sum_map_ite] at hcol
    refine Eq.trans ?_ hcol
    apply congrArg List.sum
    apply List.map_congr_left
    intro r hr
    rw [List.mem_range] at hr
    refine Eq.trans (sum_map_range_single hc0 ?_) ?_
    · intro j hj hne
      show (if decide (j = c0 ∧ F r j = v) then (1 : Nat) else 0) = 0
      simp [hne]
    · show (if decide (c0 = c0 ∧ F r c0 = v) then (1 : Nat) else 0) =
        if b (r, c0, v) then 1 else 0
      apply ite_one_congr
      constructor
      · intro hd
        exact (hFiff r hr c0 hc0 v hv).2 (of_decide_eq_true hd).2
      · intro hbv
        exact decide_eq_true ⟨rfl, (hFiff r hr c0 hc0 v hv).1 hbv⟩
  · intro ro hro co hco v hv
    have hro3 : ro = 0 ∨ ro = 3 ∨ ro = 6 := by simpa using hro
    have hco3 : co = 0 ∨ co = 3 ∨ co = 6 := by simpa using hco
    rw [countP_gridOf]
    have hbox := hb.box hv hro hco
    unfold satC boxCands at hbox
    rw [countP_flatMap] at hbox
    have hbox2 : ((List.range 3).map fun row =>
        ((List.range 3).map fun col =>
          if b (row + ro, col + co, v) then (1 : Nat) else 0).sum).sum = 1 := by
      refine Eq.trans ?_ hbox
      apply congrArg List.sum
      apply List.map_congr_left
      intro row _
      rw [List.countP_map, ← sum_map_ite]
      rfl
    refine Eq.trans ?_ hbox2
    refine Eq.trans (sum_map_range_window (w := 3) (o := ro) (by omega) ?_) ?_
    · intro i hi hout
      apply sum_map_range_zero
      intro j hj
      show (if decide (ro ≤ i ∧ i < ro + 3 ∧ co ≤ j ∧ j < co + 3 ∧ F i j = v)
          then (1 : Nat) else 0) = 0
      rw [if_neg (by simp only [decide_eq_true_eq]; omega)]
    · apply congrArg List.sum
      apply List.map_congr_left
      intro jr hjr
      rw [List.mem_range] at hjr
      refine Eq.trans (sum_map_range_window (n := 9) (w := 3) (o := co) (by omega) ?_) ?_
      · intro j hj hout
        show (if decide (ro ≤ ro + jr ∧ ro + jr < ro + 3 ∧ co ≤ j ∧ j < co + 3 ∧
            F (ro + jr) j = v) then (1 : Nat) else 0) = 0
        rw [if_neg (by simp only [decide_eq_true_eq]; omega)]
      · apply congrArg List.sum
        apply List.map_congr_left
        intro jc hjc
        rw [List.mem_range] at hjc
        show (if decide (ro ≤ ro + jr ∧ ro + jr < ro + 3 ∧ co ≤ co + jc ∧
            co + jc < co + 3 ∧ F (ro + jr) (co + jc) = v) then (1 : Nat) else 0) =
          if b (jr + ro, jc + co, v) then 1 else 0
        apply ite_one_congr
        have hr9 : ro + jr < 9 := by omega
        have hc9 : co + jc < 9 := by omega
        have hiff := hFiff (ro + jr) hr9 (co + jc) hc9 v hv
        constructor
        · intro hd
          have hbv := hiff.2 (of_decide_eq_true hd).2.2.2.2
          rw [Nat.add_comm jr ro, Nat.add_comm jc co]
          exact hbv
        · intro hbv
          apply decide_eq_true
          refine ⟨by omega, by omega, by omega, by omega, ?_⟩
          apply hiff.1
          rw [Nat.add_comm ro jr, Nat.add_comm co jc]
          exact hbv

theorem C2_witness :
    ((∀ t ∈ gridCells demoGrid, InRange t) ∧
      SatB (gval (gridAssign demoGrid))
        (set_fixed_constraints ++ startingConstraints (gridCells demoGrid))) ∧
    ((parse_solution (gval (gridAssign demoGrid))).length = 81 ∧
      (∀ r < 9, ∀ c < 9,
        ((parse_solution (gval (gridAssign demoGrid))).countP fun u =>
          decide (u.1 = r ∧ u.2.1 = c)) = 1) ∧
      (∀ u ∈ parse_solution (gval (gridAssign demoGrid)),
        u.1 < 9 ∧ u.2.1 < 9 ∧ 1 ≤ u.2.2 ∧ u.2.2 ≤ 9) ∧
      (∀ r < 9, ∀ v ∈ values,
        ((parse_solution (gval (gridAssign demoGrid))).countP fun u =>
          decide (u.1 = r ∧ u.2.2 = v)) = 1) ∧
      (∀ c < 9, ∀ v ∈ values,
        ((parse_solution (gval (gridAssign demoGrid))).countP fun u =>
          decide (u.2.1 = c ∧ u.2.2 = v)) = 1) ∧
      (∀ ro ∈ ([0, 3, 6] : List Nat), ∀ co ∈ ([0, 3, 6] : List Nat), ∀ v ∈ values,
        ((parse_solution (gval (gridAssign demoGrid))).countP fun u =>
          decide (ro ≤ u.1 ∧ u.1 < ro + 3 ∧ co ≤ u.2.1 ∧ u.2.1 < co + 3 ∧
            u.2.2 = v)) = 1)) :=
  have hsat : SatB (gval (gridAssign demoGrid))
      (set_fixed_constraints ++ startingConstraints (gridCells demoGrid)) :=
    validGrid_satB (by decide) fun _ h => h
  ⟨⟨by decide, hsat⟩,
    C2_solution_valid (gridCells demoGrid) (gval (gridAssign demoGrid)) (by decide) hsat⟩

end Sudoku



